import Mathlib

/-!
Verification development for the `bin` repository's process supervisor
(`multi_heartbeat.py`).  The Python source is shallowly embedded: pure string
processing is translated to executable Lean functions on `List Char`, the
stateful reconciliation tick (`check_and_restart_python_scripts`) becomes a
pure function from an explicit environment (registry file contents, process
table, discovered worker files, per-call allocator observations) to a trace of
launch / allocation / supervision events plus the registry it persists.
Machine integers do not overflow anywhere in the modelled code, so ports are
`Nat`.

Modelling conventions, fixed once here:
* shell command outcomes are inputs of the model: the stripped stdout of the
  `lsof` pipeline is an `Option String` (`none` models the sub-process
  raising), the `ps aux` table is a `List String` of process lines, the
  `glob("/root/bin/*.py")` result is a `List String` in glob order;
* `subprocess.run` of launch / `supervisorctl` commands and writes of the
  per-worker port files are fire-and-forget in the source (failures are not
  observed by the tick), so they are recorded as trace events;
* Python's `int(x)` is modelled for plain digit strings, the only form the
  `lsof | ... | cut` pipeline produces; other accepted spellings (signs,
  surrounding whitespace, digit underscores) are not exercised by any claim;
* `json.load` is modelled on the profile the program ever persists — a JSON
  object with string keys and non-negative integer values; any other content
  makes the model's loader return `none`, which coincides with the source
  aborting the tick (a non-dict document makes `script_ports.items()` raise,
  malformed JSON makes `json.load` raise, both reach the same
  `except Exception` handler).  Lone-surrogate escapes, which Python would
  accept, are not representable as Lean strings and also map to `none`;
  no claim depends on them.
-/

/-! ### Characters, whitespace, digits -/

/-- JSON/shell whitespace test (space, newline, tab, carriage return). -/
def isWs (c : Char) : Bool :=
  c.toNat = 32 || c.toNat = 10 || c.toNat = 9 || c.toNat = 13

/-- Drop leading whitespace, as `json` does between tokens. -/
def skipWs : List Char → List Char
  | [] => []
  | c :: cs => if isWs c then skipWs cs else c :: cs

/-- Split a character list at every occurrence of `sep`; mirrors Python's
`str.split(sep)` on a non-empty string. -/
def splitChar (sep : Char) : List Char → List (List Char)
  | [] => [[]]
  | c :: cs =>
    if c = sep then [] :: splitChar sep cs
    else
      match splitChar sep cs with
      | [] => [[c]]
      | g :: gs => (c :: g) :: gs

/-- Decimal digit value of a character, if it is one. -/
def digitVal? (c : Char) : Option Nat :=
  if 48 ≤ c.toNat ∧ c.toNat ≤ 57 then some (c.toNat - 48) else none

/-- Accumulate decimal digits; stops at the first non-digit. -/
def takeDigits : List Char → Nat → Nat × List Char
  | [], acc => (acc, [])
  | c :: cs, acc =>
    match digitVal? c with
    | some d => takeDigits cs (acc * 10 + d)
    | none => (acc, c :: cs)

/-- Parse a run of decimal digits from the entire list; `none` unless every
character is a digit and the list is non-empty.  Models `int(x)` on the digit
strings produced by the `lsof` pipeline. -/
def parseNatList : List Char → Nat → Option Nat
  | [], acc => some acc
  | c :: cs, acc =>
    match digitVal? c with
    | some d => parseNatList cs (acc * 10 + d)
    | none => none

/-- Whole-string decimal parse (`int(port_str)`), `none` on the empty string. -/
def parseNatAll (l : List Char) : Option Nat :=
  match l with
  | [] => none
  | _ => parseNatList l 0

/-- Decimal digit character. -/
def decDigitChar (n : Nat) : Char := Char.ofNat (48 + n)

/-- Decimal digits of `n`, most significant first; `fuel` bounds the
recursion and any `fuel > n` is enough. -/
def natToStrAux : Nat → Nat → List Char
  | 0, _ => []
  | fuel + 1, n =>
    if n < 10 then [decDigitChar n]
    else natToStrAux fuel (n / 10) ++ [decDigitChar (n % 10)]

/-- Decimal rendering of a natural number, as Python's `str`/f-strings and
`json.dump` print integers. -/
def natToStr (n : Nat) : String := ⟨natToStrAux (n + 1) n⟩

/-!  ### Port allocator — `find_available_port` (multi_heartbeat.py:78-113)

The environment supplies the stripped stdout of
`lsof -i -P -n | grep LISTEN | awk ... | cut ... | sort -u` as
`Option String` (`none` = the shell invocation raised) and the would-be
outcome of `socket.bind(('', port))` as a boolean per port. -/

/-- Parse of the `lsof` pipeline output (multi_heartbeat.py:89-95): one port
per line, lines that fail `int()` are skipped; an empty stripped output means
no used ports. -/
def parsePorts (s : String) : List Nat :=
  if s.data = [] then []
  else (splitChar '\n' s.data).filterMap parseNatAll

/-- First number in `[start, start + len)` satisfying `ok`, scanning
ascending; models the two `for port in range(start_port, end_port + 1)`
loops. -/
def firstInRange (start : Nat) (len : Nat) (ok : Nat → Bool) : Option Nat :=
  match len with
  | 0 => none
  | l + 1 => if ok start then some start else firstInRange (start + 1) l ok

/-- `find_available_port` (multi_heartbeat.py:78-113, identically
multi_python_setup.py:83-117): scan for a port not in the parsed `lsof` set;
on pipeline failure or exhaustion fall back to the bind probe; if that also
exhausts the range, return 8081. -/
def find_available_port (lsofOut : Option String) (bindOk : Nat → Bool)
    (start_port : Nat) (end_port : Nat) : Nat :=
  match lsofOut with
  | some out =>
    match firstInRange start_port (end_port + 1 - start_port)
        (fun p => !decide (p ∈ parsePorts out)) with
    | some p => p
    | none =>
      match firstInRange start_port (end_port + 1 - start_port) bindOk with
      | some p => p
      | none => 8081
  | none =>
    match firstInRange start_port (end_port + 1 - start_port) bindOk with
    | some p => p
    | none => 8081

/-! ### Liveness probe (multi_heartbeat.py:129-137)

`ps aux | grep '<path> --port <port>' | grep -v grep` — the first `grep`
matches its pattern as a basic regular expression in which `.` (present in
every script path) matches any character; the second removes every line
containing `grep`, in particular the pipeline's own `grep` process. -/

/-- Does the pattern match at the head of the line (`.` matches any
character, every other pattern character itself)? -/
def bregMatchAt : List Char → List Char → Bool
  | [], _ => true
  | _ :: _, [] => false
  | p :: ps, c :: cs => (p = '.' || p = c) && bregMatchAt ps cs

/-- Does the pattern match anywhere in the line? -/
def bregMatch (pat : List Char) : List Char → Bool
  | [] => bregMatchAt pat []
  | c :: cs => bregMatchAt pat (c :: cs) || bregMatch pat cs

/-- The literal pattern of the second grep. -/
def grepLit : String := "grep"

/-- The liveness pattern `<path> --port <port>` built by the f-string at
multi_heartbeat.py:129. -/
def grepPat (path : String) (port : Nat) : String :=
  path ++ " --port " ++ natToStr port

/-- The check pipeline has non-empty output iff some process-table line
matches the pattern and does not contain `grep`. -/
def isAlive (procs : List String) (path : String) (port : Nat) : Bool :=
  procs.any fun line =>
    bregMatch (grepPat path port).data line.data
      && !(bregMatch grepLit.data line.data)

/-- Last path component, `os.path.basename`. -/
def basenameCh (p : List Char) : List Char := (splitChar '/' p).getLastD []

/-- Supervisor program name: `os.path.basename(path).split('.')[0]`
(multi_heartbeat.py:126,143). -/
def programName (p : String) : String :=
  ⟨(splitChar '.' (basenameCh p.data)).headD []⟩

/-! ### Sleep jitter (multi_heartbeat.py:256-259) -/

/-- `random.randint(a, b)`: a uniform draw from `[a, b]` obtained from a
uniform source value `r` by reduction modulo the size of the range. -/
def randint (a b r : Nat) : Nat := a + r % (b + 1 - a)

/-- The inter-tick sleep duration, `random.randint(30, 90)`. -/
def sleepInterval (r : Nat) : Nat := randint 30 90 r

/-! ### Registry store — the persisted `script_ports` dictionary

`Registry` is an insertion-ordered association list with Python-dict
semantics: `dictInsert` updates an existing key in place and appends a new
one, exactly like `d[k] = v`. -/

/-- The registry: worker path → assigned port, in insertion order. -/
abbrev Registry : Type := List (String × Nat)

/-- Keys of the registry, in order. -/
def dictKeys (R : Registry) : List String := R.map Prod.fst

/-- Value lookup, first (and with dict semantics only) binding of the key. -/
def dictGet? (R : Registry) (k : String) : Option Nat :=
  match R with
  | [] => none
  | (k2, v) :: rest => if k2 = k then some v else dictGet? rest k

/-- Python's `d[k] = v`: overwrite in place or append. -/
def dictInsert (R : Registry) (k : String) (v : Nat) : Registry :=
  match R with
  | [] => [(k, v)]
  | (k2, v2) :: rest =>
    if k2 = k then (k, v) :: rest else (k2, v2) :: dictInsert rest k v

/-! ### `json.dump(script_ports, f, indent=4)` (multi_heartbeat.py:186-187) -/

/-- Lowercase hexadecimal digit, as CPython's `"\u%04x"` prints. -/
def hexDigitChar (n : Nat) : Char :=
  if n < 10 then Char.ofNat (48 + n) else Char.ofNat (87 + n)

/-- Four lowercase hex digits of `m < 0x10000`. -/
def toHex4 (m : Nat) : List Char :=
  [hexDigitChar (m / 4096 % 16), hexDigitChar (m / 256 % 16),
   hexDigitChar (m / 16 % 16), hexDigitChar (m % 16)]

/-- CPython's `py_encode_basestring_ascii` escape of one character
(`ensure_ascii=True`, the `json.dump` default): the two-character escapes of
`ESCAPE_DCT`, `\u00xx` for remaining control characters, printable ASCII
verbatim, `\uxxxx` for other BMP characters and a surrogate pair for
characters above `0xFFFF`. -/
def escapeChar (c : Char) : List Char :=
  if c = '"' then ['\\', '"']
  else if c = '\\' then ['\\', '\\']
  else if c = '\n' then ['\\', 'n']
  else if c = '\r' then ['\\', 'r']
  else if c = '\t' then ['\\', 't']
  else if c.toNat = 8 then ['\\', 'b']
  else if c.toNat = 12 then ['\\', 'f']
  else if c.toNat < 32 then '\\' :: 'u' :: toHex4 c.toNat
  else if c.toNat < 127 then [c]
  else if c.toNat < 65536 then '\\' :: 'u' :: toHex4 c.toNat
  else
    '\\' :: 'u' :: toHex4 (55296 + (c.toNat - 65536) / 1024) ++
      '\\' :: 'u' :: toHex4 (56320 + (c.toNat - 65536) % 1024)

/-- Escape every character of a string body. -/
def encodeChars : List Char → List Char
  | [] => []
  | c :: cs => escapeChar c ++ encodeChars cs

/-- One `indent=4` entry line body: four spaces, the quoted escaped key,
`": "`, the decimal value. -/
def entryChars (k : String) (v : Nat) : List Char :=
  ' ' :: ' ' :: ' ' :: ' ' :: '"' ::
    (encodeChars k.data ++ '"' :: ':' :: ' ' :: natToStrAux (v + 1) v)

/-- The entry lines joined by `",\n"`. -/
def dumpEntriesList : Registry → List Char
  | [] => []
  | [(k, v)] => entryChars k v
  | (k, v) :: rest => entryChars k v ++ ',' :: '\n' :: dumpEntriesList rest

/-- `json.dump(R, f, indent=4)` output: `\x7b\x7d` for the empty dict,
otherwise the entries between braces on their own lines. -/
def dumpRegistry (R : Registry) : String :=
  match R with
  | [] => "\x7b\x7d"
  | _ => ⟨'\x7b' :: '\n' :: (dumpEntriesList R ++ ['\n', '\x7d'])⟩

/-! ### `json.load(f)` (multi_heartbeat.py:121-122), on the persisted profile -/

/-- Hexadecimal digit value accepted by the JSON string unescaper. -/
def hexVal? (c : Char) : Option Nat :=
  if 48 ≤ c.toNat ∧ c.toNat ≤ 57 then some (c.toNat - 48)
  else if 97 ≤ c.toNat ∧ c.toNat ≤ 102 then some (c.toNat - 87)
  else if 65 ≤ c.toNat ∧ c.toNat ≤ 70 then some (c.toNat - 55)
  else none

/-- Require a specific character at the head of the input. -/
def expectChar (c : Char) : List Char → Option (List Char)
  | [] => none
  | c2 :: r => if c2 = c then some r else none

/-- Read four hex digits. -/
def hex4? : List Char → Option (Nat × List Char)
  | a :: b :: c :: d :: rest =>
    (hexVal? a).bind fun va =>
    (hexVal? b).bind fun vb =>
    (hexVal? c).bind fun vc =>
    (hexVal? d).bind fun vd =>
    some (((va * 16 + vb) * 16 + vc) * 16 + vd, rest)
  | _ => none

/-- Decode a `\u` escape (the four hex digits and, for a high surrogate,
the immediately following `\u`-escaped low surrogate).  Lone surrogates are
unrepresentable in Lean strings and rejected. -/
def parseUChar (l : List Char) : Option (Char × List Char) :=
  (hex4? l).bind fun mr =>
    if 55296 ≤ mr.1 ∧ mr.1 ≤ 56319 then
      (expectChar '\\' mr.2).bind fun r1 =>
      (expectChar 'u' r1).bind fun r2 =>
      (hex4? r2).bind fun mr2 =>
        if 56320 ≤ mr2.1 ∧ mr2.1 ≤ 57343 then
          some (Char.ofNat (65536 + (mr.1 - 55296) * 1024 + (mr2.1 - 56320)), mr2.2)
        else none
    else if 56320 ≤ mr.1 ∧ mr.1 ≤ 57343 then none
    else some (Char.ofNat mr.1, mr.2)

/-- Prepend a decoded character to a string-body parse result. -/
def consCh (c : Char) :
    Option (List Char × List Char) → Option (List Char × List Char)
  | none => none
  | some (s, r) => some (c :: s, r)

/-- JSON string body after the opening quote: literal characters above
`0x1F`, the standard escapes, `\uxxxx` with surrogate-pair recombination.
Unescaped control characters are rejected (`json.loads` strict mode); lone
surrogates are unrepresentable in Lean strings and rejected (no claim
exercises them).  `fuel` bounds the recursion; any `fuel` above the number
of decoded characters is enough.  `parseEsc` handles the character after a
backslash. -/
def parseEsc : List Char → Option (Char × List Char)
  | [] => none
  | e :: cs2 =>
    if e = '"' then some ('"', cs2)
    else if e = '\\' then some ('\\', cs2)
    else if e = '/' then some ('/', cs2)
    else if e = 'b' then some ('\x08', cs2)
    else if e = 'f' then some ('\x0c', cs2)
    else if e = 'n' then some ('\n', cs2)
    else if e = 'r' then some ('\r', cs2)
    else if e = 't' then some ('\t', cs2)
    else if e = 'u' then parseUChar cs2
    else none

def parseStrBody : Nat → List Char → Option (List Char × List Char)
  | 0, _ => none
  | _ + 1, [] => none
  | fuel + 1, c :: cs =>
    if c = '"' then some ([], cs)
    else if c = '\\' then
      (parseEsc cs).bind fun cr => consCh cr.1 (parseStrBody fuel cr.2)
    else if c.toNat < 32 then none
    else consCh c (parseStrBody fuel cs)

/-- A JSON integer on the persisted profile: a non-empty digit run. -/
def parseJsonNat : List Char → Option (Nat × List Char)
  | [] => none
  | c :: cs => if (digitVal? c).isSome then some (takeDigits (c :: cs) 0) else none


/-- Members of the top-level object, positioned at the opening quote of a
key; duplicate keys follow dict semantics (last value wins).  `fuel` bounds
the recursion; any `fuel` above the number of members is enough. -/
def parseEntries : Nat → List Char → Registry → Option (Registry × List Char)
  | 0, _, _ => none
  | _ + 1, [], _ => none
  | fuel + 1, c :: cs, acc =>
    if c = '"' then
      (parseStrBody (cs.length + 1) cs).bind fun kr =>
      (expectChar ':' (skipWs kr.2)).bind fun r2 =>
      (parseJsonNat (skipWs r2)).bind fun vr =>
        match skipWs vr.2 with
        | c3 :: r5 =>
          if c3 = ',' then
            parseEntries fuel (skipWs r5) (dictInsert acc (String.mk kr.1) vr.1)
          else if c3 = '\x7d' then
            some (dictInsert acc (String.mk kr.1) vr.1, r5)
          else none
        | [] => none
    else none

/-- `json.load` of the registry document: a single top-level object with
string keys and integer values and nothing but whitespace after it. -/
def parseTop (l : List Char) : Option Registry :=
  (expectChar '\x7b' (skipWs l)).bind fun cs =>
    match skipWs cs with
    | c2 :: cs2 =>
      if c2 = '\x7d' then (if (skipWs cs2).isEmpty then some [] else none)
      else
        (parseEntries ((c2 :: cs2).length + 1) (c2 :: cs2) []).bind fun Rr =>
          if (skipWs Rr.2).isEmpty then some Rr.1 else none
    | [] => none

/-- Registry store `load` on a raw document. -/
def loadRegistryString (s : String) : Option Registry := parseTop s.data

/-! ### The reconciliation tick — `check_and_restart_python_scripts`
(multi_heartbeat.py:115-190) -/

/-- Observable side effects of one tick, in program order. -/
inductive Event where
  /-- `sudo supervisorctl restart <program>` for a dead registered worker
  (multi_heartbeat.py:144-147). -/
  | restartCmd (prog : String)
  /-- `sudo nohup /usr/bin/python3 <path> --port <port> ...`
  (multi_heartbeat.py:150-153 and 168-171). -/
  | launch (path : String) (port : Nat)
  /-- a `find_available_port()` call made while handling the new file
  `path`, returning `port` (multi_heartbeat.py:164). -/
  | alloc (path : String) (port : Nat)
  /-- `setup_supervisor_for_script(path, port)`: the supervision stanza is
  written and `supervisorctl reread`/`update` triggered
  (multi_heartbeat.py:181, 192-230). -/
  | stanza (path : String) (port : Nat)
deriving DecidableEq

/-- Allocator-visible environment: the `lsof` pipeline output and the bind
probe outcome for the k-th `find_available_port()` call of the tick (the
host's socket table can change between calls). -/
structure AllocEnv where
  lsofOut : Nat → Option String
  bindOk : Nat → Nat → Bool

/-- Environment of one tick. -/
structure Env where
  /-- `os.path.exists("/root/script_ports.json")`. -/
  fileExists : Bool
  /-- raw content of `/root/script_ports.json`. -/
  fileContent : String
  /-- `ps aux` output lines. -/
  procTable : List String
  /-- `glob.glob("/root/bin/*.py")` in glob order. -/
  binFiles : List String
  /-- allocator observations. -/
  alloc : AllocEnv

/-- Result of one tick: its event trace and the registry written back to
`/root/script_ports.json` (`none` when the tick was aborted by the
`except Exception` handler before reaching the save). -/
structure TickResult where
  events : List Event
  saved : Option Registry
deriving DecidableEq

/-- Registry load of the tick (multi_heartbeat.py:118-122): missing file
means the initial empty dict; a parse failure propagates as an exception
(`none`). -/
def loadRegistryEnv (e : Env) : Option Registry :=
  if e.fileExists then parseTop e.fileContent.data else some []

/-- The probe/restart loop over registered entries
(multi_heartbeat.py:125-155): an entry whose check pipeline output is empty
gets a `supervisorctl restart` and a direct relaunch on its registered
port. -/
def probePhase (procs : List String) : Registry → List Event
  | [] => []
  | (path, port) :: rest =>
    (if isAlive procs path port then []
     else [Event.restartCmd (programName path), Event.launch path port])
      ++ probePhase procs rest

/-- The discovery loop over `/root/bin/*.py` (multi_heartbeat.py:157-183):
a file not yet registered gets a fresh allocation, a launch, a registry
entry and a supervision stanza; `k` counts allocator calls already made in
this tick. -/
def discoverPhase (A : AllocEnv) :
    List String → Registry → Nat → Registry × List Event × Nat
  | [], R, k => (R, [], k)
  | f :: fs, R, k =>
    if f ∈ dictKeys R then discoverPhase A fs R k
    else
      let port := find_available_port (A.lsofOut k) (A.bindOk k) 5000 65535
      let rest := discoverPhase A fs (dictInsert R f port) (k + 1)
      (rest.1,
       Event.alloc f port :: Event.launch f port :: Event.stanza f port :: rest.2.1,
       rest.2.2)

/-- One reconciliation tick (multi_heartbeat.py:115-190): load the registry,
probe and restart registered workers, discover and start new files, save the
registry.  An exception while loading reaches the handler at line 189-190:
nothing else of the tick runs and nothing is saved. -/
def check_and_restart_python_scripts (e : Env) : TickResult :=
  match loadRegistryEnv e with
  | none => ⟨[], none⟩
  | some R =>
    ⟨probePhase e.procTable R ++ (discoverPhase e.alloc e.binFiles R 0).2.1,
     some (discoverPhase e.alloc e.binFiles R 0).1⟩

/-! ### Concrete inputs used by witnesses and counterexamples -/

/-- Worker key of the restart-convergence scenario. -/
def pathC1 : String := "a.worker"

/-- Persisted registry document of the restart-convergence scenario. -/
def contentC1 : String := "\x7b\"a.worker\": 5001\x7d"

/-- Tick environment: registry `a.worker → 5001`, no matching process, no
new files. -/
def envC1 : Env := ⟨true, contentC1, [], [], ⟨fun _ => none, fun _ _ => false⟩⟩

/-- First discovered worker file of the duplicate-port scenario. -/
def fileC2a : String := "/root/bin/a.py"

/-- Second discovered worker file of the duplicate-port scenario. -/
def fileC2b : String := "/root/bin/b.py"

/-- An `lsof` pipeline output reporting no listening ports. -/
def emptyOutC2 : String := ""

/-- Tick environment: empty registry, two new files, and a LISTEN set that
does not change between the two allocation calls. -/
def envC2 : Env :=
  ⟨false, emptyOutC2, [], [fileC2a, fileC2b], ⟨fun _ => some emptyOutC2, fun _ _ => false⟩⟩

/-- An `lsof` pipeline output reporting ports 5000 and 5001 in use. -/
def outC3 : String := "5000\n5001"

/-- A bind probe that always fails (irrelevant when the query succeeds). -/
def bindC3 : Nat → Bool := fun _ => false

/-- A bind probe that succeeds exactly on port 5005. -/
def bindC4 : Nat → Bool := fun p => decide (p = 5005)

/-- A registry document that is not valid JSON. -/
def garbageC5 : String := "garbage"

/-- The worker file visible to discovery in the malformed-registry
scenario. -/
def fileC5 : String := "/root/bin/b.py"

/-- Tick environment with a malformed persisted registry and one
discoverable worker file. -/
def envC5m : Env :=
  ⟨true, garbageC5, [], [fileC5], ⟨fun _ => some emptyOutC2, fun _ _ => false⟩⟩

/-- The same environment with the registry file absent instead of
malformed. -/
def envC5a : Env :=
  ⟨false, garbageC5, [], [fileC5], ⟨fun _ => some emptyOutC2, fun _ _ => false⟩⟩

/-- Worker path of the liveness counterexample. -/
def pathC6 : String := "a.py"

/-- A process-table line that contains the exact probe substring but also
the word `grep` (for instance the probe pipeline's own grep process). -/
def lineC6 : String := "grep a.py --port 5001"

/-- The prefix of `lineC6` before the probe substring. -/
def prefC6 : String := "grep "

/-- A process-table line on which the probe correctly reports liveness. -/
def lineW6 : String := "python3 a.py --port 5001"

/-- The prefix of `lineW6` before the probe substring. -/
def prefW6 : String := "python3 "

/-- Worker key of the dead-entry supervision scenario. -/
def pathC7 : String := "a.py"

/-- Persisted registry document `a.py → 5001`. -/
def contentC7 : String := "\x7b\"a.py\": 5001\x7d"

/-- Tick environment: one dead registered worker, no new files. -/
def envC7 : Env := ⟨true, contentC7, [], [], ⟨fun _ => none, fun _ _ => false⟩⟩

/-- Worker key of the persistence round-trip witness. -/
def pathC8 : String := "b.worker"

/-- Registry of the persistence round-trip witness. -/
def regC8 : Registry := [(pathC8, 5001)]

/-! ## Supporting lemmas and claim theorems -/

theorem firstInRange_eq_some {start len p : Nat} {ok : Nat → Bool}
    (h : firstInRange start len ok = some p) :
    ok p = true ∧ start ≤ p ∧ p < start + len ∧
      ∀ q, start ≤ q → q < p → ok q = false := by
  induction len generalizing start with
  | zero => simp [firstInRange] at h
  | succ l ih =>
    rw [firstInRange] at h
    cases hs : ok start with
    | true =>
      rw [hs] at h
      simp at h
      subst h
      exact ⟨hs, Nat.le_refl _, by omega, fun q h1 h2 => by omega⟩
    | false =>
      rw [hs] at h
      simp at h
      obtain ⟨h1, h2, h3, h4⟩ := ih h
      refine ⟨h1, by omega, by omega, fun q hq1 hq2 => ?_⟩
      rcases Nat.eq_or_lt_of_le hq1 with heq | hlt
      · exact heq ▸ hs
      · exact h4 q hlt hq2

theorem firstInRange_eq_none {start len : Nat} {ok : Nat → Bool}
    (h : firstInRange start len ok = none) :
    ∀ q, start ≤ q → q < start + len → ok q = false := by
  induction len generalizing start with
  | zero => intro q h1 h2; omega
  | succ l ih =>
    rw [firstInRange] at h
    cases hs : ok start with
    | true => rw [hs] at h; simp at h
    | false =>
      rw [hs] at h
      simp at h
      intro q h1 h2
      rcases Nat.eq_or_lt_of_le h1 with heq | hlt
      · exact heq ▸ hs
      · exact ih h q hlt (by omega)

/-- Claim C3: when the host-level listening-port query succeeds,
`find_available_port` returns the smallest in-range port outside the parsed
LISTEN set, and the result does not depend on the bind probe — two calls
against the same reported LISTEN set return the same port. -/
theorem c3_lowest_free_port (out : String) (b : Nat → Bool) (sp ep : Nat)
    (hex : ∃ p, sp ≤ p ∧ p ≤ ep ∧ p ∉ parsePorts out) :
    (sp ≤ find_available_port (some out) b sp ep ∧
     find_available_port (some out) b sp ep ≤ ep ∧
     find_available_port (some out) b sp ep ∉ parsePorts out ∧
     ∀ q, sp ≤ q → q ≤ ep → q ∉ parsePorts out →
       find_available_port (some out) b sp ep ≤ q) ∧
    ∀ b2, find_available_port (some out) b sp ep
        = find_available_port (some out) b2 sp ep := by
  obtain ⟨p0, hp1, hp2, hp3⟩ := hex
  have hsome : ∃ p, firstInRange sp (ep + 1 - sp)
      (fun p => !decide (p ∈ parsePorts out)) = some p := by
    cases hf : firstInRange sp (ep + 1 - sp)
        (fun p => !decide (p ∈ parsePorts out)) with
    | some p => exact ⟨p, rfl⟩
    | none =>
      have hq := firstInRange_eq_none hf p0 hp1 (by omega)
      simp at hq
      exact absurd hq hp3
  obtain ⟨p, hp⟩ := hsome
  have hfind : find_available_port (some out) b sp ep = p := by
    simp only [find_available_port, hp]
  obtain ⟨hok, hge, hlt, hmin⟩ := firstInRange_eq_some hp
  have hnotmem : p ∉ parsePorts out := by simpa using hok
  rw [hfind]
  refine ⟨⟨hge, by omega, hnotmem, fun q hq1 hq2 hq3 => ?_⟩, fun b2 => ?_⟩
  · by_contra hcon
    push_neg at hcon
    have hmem := hmin q hq1 hcon
    simp at hmem
    exact hq3 hmem
  · have h2 : find_available_port (some out) b2 sp ep = p := by
      simp only [find_available_port, hp]
    rw [h2]

/-- Witness for C3: against the LISTEN set reporting 5000 and 5001, the
allocator yields an in-range port outside the set. -/
theorem c3_lowest_free_port_witness :
    5000 ≤ find_available_port (some outC3) bindC3 5000 65535 ∧
    find_available_port (some outC3) bindC3 5000 65535 ∉ parsePorts outC3 :=
  ⟨(c3_lowest_free_port outC3 bindC3 5000 65535
      ⟨5002, by decide, by decide, by decide⟩).1.1,
   (c3_lowest_free_port outC3 bindC3 5000 65535
      ⟨5002, by decide, by decide, by decide⟩).1.2.2.1⟩

/-- Claim C4: when the listening-port query fails, `find_available_port`
returns the first (lowest) port on which the bind probe succeeds, and when
no port in the range can be bound either, it returns the fixed fallback
8081 instead of failing. -/
theorem c4_bind_fallback (b : Nat → Bool) (sp ep : Nat) :
    (∀ p0, sp ≤ p0 → p0 ≤ ep → b p0 = true →
       sp ≤ find_available_port none b sp ep ∧
       find_available_port none b sp ep ≤ ep ∧
       b (find_available_port none b sp ep) = true ∧
       ∀ q, sp ≤ q → q < find_available_port none b sp ep → b q = false) ∧
    ((∀ p, sp ≤ p → p ≤ ep → b p = false) →
      find_available_port none b sp ep = 8081) := by
  constructor
  · intro p0 h1 h2 h3
    have hsome : ∃ p, firstInRange sp (ep + 1 - sp) b = some p := by
      cases hf : firstInRange sp (ep + 1 - sp) b with
      | some p => exact ⟨p, rfl⟩
      | none =>
        have hq := firstInRange_eq_none hf p0 h1 (by omega)
        rw [h3] at hq
        simp at hq
    obtain ⟨p, hp⟩ := hsome
    have hfind : find_available_port none b sp ep = p := by
      simp only [find_available_port, hp]
    obtain ⟨hok, hge, hlt, hmin⟩ := firstInRange_eq_some hp
    rw [hfind]
    exact ⟨hge, by omega, hok, hmin⟩
  · intro hall
    cases hf : firstInRange sp (ep + 1 - sp) b with
    | some p =>
      obtain ⟨hok, hge, hlt, _⟩ := firstInRange_eq_some hf
      have hfalse := hall p hge (by omega)
      rw [hfalse] at hok
      simp at hok
    | none => simp only [find_available_port, hf]

/-- Witness for C4: with only port 5005 bindable the probe finds a bindable
port, and with nothing bindable the allocator returns 8081. -/
theorem c4_bind_fallback_witness :
    bindC4 (find_available_port none bindC4 5000 65535) = true ∧
    find_available_port none (fun _ => false) 5000 65535 = 8081 :=
  ⟨((c4_bind_fallback bindC4 5000 65535).1 5005 (by decide) (by decide)
      (by decide)).2.2.1,
   (c4_bind_fallback (fun _ => false) 5000 65535).2 (fun _ _ _ => rfl)⟩

/-- Claim C10: the inter-tick sleep duration always lies in the bounded
range `[30, 90]` seconds, and every duration in that range is realized by
exactly one residue of the uniform source — the draw is uniform over the
range and is not a fixed constant. -/
theorem c10_sleep_jitter :
    (∀ r, 30 ≤ sleepInterval r ∧ sleepInterval r ≤ 90) ∧
    (∀ v, 30 ≤ v → v ≤ 90 →
      ∃ r, r < 61 ∧ sleepInterval r = v ∧
        ∀ r2, r2 < 61 → sleepInterval r2 = v → r2 = r) := by
  constructor
  · intro r
    unfold sleepInterval randint
    have h : r % 61 < 61 := Nat.mod_lt _ (by omega)
    omega
  · intro v h1 h2
    refine ⟨v - 30, by omega, ?_, ?_⟩
    · unfold sleepInterval randint
      have h : (v - 30) % 61 = v - 30 := Nat.mod_eq_of_lt (by omega)
      omega
    · intro r2 hr2 hv
      unfold sleepInterval randint at hv
      have h : r2 % 61 = r2 := Nat.mod_eq_of_lt hr2
      omega

/-- Witness for C10 at source value 7. -/
theorem c10_sleep_jitter_witness :
    30 ≤ sleepInterval 7 ∧ sleepInterval 7 ≤ 90 :=
  c10_sleep_jitter.1 7

/-! ### Liveness probe lemmas and claim C6 -/

theorem bregMatchAt_refl_append (pat t : List Char) :
    bregMatchAt pat (pat ++ t) = true := by
  induction pat with
  | nil => rfl
  | cons p ps ih => simp [bregMatchAt, ih]

theorem bregMatch_of_at {pat l : List Char} (h : bregMatchAt pat l = true) :
    bregMatch pat l = true := by
  cases l with
  | nil => simpa [bregMatch] using h
  | cons c cs => simp [bregMatch, h]

theorem bregMatch_cons {pat cs : List Char} (c : Char)
    (h : bregMatch pat cs = true) : bregMatch pat (c :: cs) = true := by
  simp [bregMatch, h]

theorem bregMatch_of_inf {pat l : List Char} (h : pat <:+: l) :
    bregMatch pat l = true := by
  obtain ⟨s, t, rfl⟩ := h
  induction s with
  | nil => exact bregMatch_of_at (bregMatchAt_refl_append pat t)
  | cons a s2 ih => exact bregMatch_cons a ih

theorem bregMatchAt_pref {pat : List Char} (hd : '.' ∉ pat) :
    ∀ {l : List Char}, bregMatchAt pat l = true → pat <+: l := by
  induction pat with
  | nil => exact fun h => List.nil_prefix
  | cons p ps ih =>
    intro l h
    cases l with
    | nil => simp [bregMatchAt] at h
    | cons c cs =>
      simp only [bregMatchAt, Bool.and_eq_true, Bool.or_eq_true,
        decide_eq_true_eq] at h
      obtain ⟨hpc, hrest⟩ := h
      have hp : p = c := by
        rcases hpc with hdot | hpc
        · exact absurd (by rw [hdot]; exact List.mem_cons_self _ _) hd
        · exact hpc
      subst hp
      have hd2 : '.' ∉ ps := fun hmem => hd (List.mem_cons_of_mem _ hmem)
      obtain ⟨t2, ht2⟩ := ih hd2 hrest
      exact ⟨t2, by rw [List.cons_append, ht2]⟩

theorem bregMatch_infix_of_nodot {pat : List Char} (hd : '.' ∉ pat) :
    ∀ {l : List Char}, bregMatch pat l = true → pat <:+: l := by
  intro l
  induction l with
  | nil =>
    intro h
    rw [bregMatch] at h
    cases pat with
    | nil => exact List.nil_infix
    | cons p ps => simp [bregMatchAt] at h
  | cons c cs ih =>
    intro h
    rw [bregMatch, Bool.or_eq_true] at h
    rcases h with h1 | h2
    · exact (bregMatchAt_pref hd h1).isInfix
    · obtain ⟨s2, t2, ht2⟩ := ih h2
      exact ⟨c :: s2, t2, by rw [List.cons_append, List.cons_append, ht2]⟩

/-- Claim C6 (amended): the probe reports a worker alive iff some process
line matches the grep pattern `<path> --port <port>` — with `.` in the path
matching any single character — and does not itself contain `grep` (the
pipeline's `grep -v grep` removes such lines); in particular every process
line that contains the exact substring `<path> --port <port>` and is free of
`grep` makes the probe report alive. -/
theorem c6_liveness_probe (procs : List String) (path : String) (port : Nat) :
    (isAlive procs path port = true ↔
      ∃ line ∈ procs, bregMatch (grepPat path port).data line.data = true ∧
        ¬ (grepLit.data <:+: line.data)) ∧
    (∀ line ∈ procs, (grepPat path port).data <:+: line.data →
      ¬ (grepLit.data <:+: line.data) → isAlive procs path port = true) := by
  have hnod : '.' ∉ grepLit.data := by decide
  constructor
  · rw [isAlive, List.any_eq_true]
    constructor
    · rintro ⟨line, hmem, hline⟩
      rw [Bool.and_eq_true] at hline
      obtain ⟨h1, h2⟩ := hline
      refine ⟨line, hmem, h1, fun hinf => ?_⟩
      rw [bregMatch_of_inf hinf] at h2
      simp at h2
    · rintro ⟨line, hmem, h1, h2⟩
      refine ⟨line, hmem, ?_⟩
      rw [Bool.and_eq_true]
      have hg : bregMatch grepLit.data line.data = false := by
        cases hg2 : bregMatch grepLit.data line.data with
        | false => rfl
        | true => exact absurd (bregMatch_infix_of_nodot hnod hg2) h2
      simp [h1, hg]
  · intro line hmem hpat hgrep
    rw [isAlive, List.any_eq_true]
    refine ⟨line, hmem, ?_⟩
    rw [Bool.and_eq_true]
    have hg : bregMatch grepLit.data line.data = false := by
      cases hg2 : bregMatch grepLit.data line.data with
      | false => rfl
      | true => exact absurd (bregMatch_infix_of_nodot hnod hg2) hgrep
    simp [bregMatch_of_inf hpat, hg]

/-- Counterexample for C6 as stated: the process line
`grep a.py --port 5001` contains the exact probe substring
`a.py --port 5001`, yet the probe reports the worker dead, because the
pipeline's `grep -v grep` also removes every process line that merely
contains `grep`. -/
theorem c6_counterexample :
    ((grepPat pathC6 5001).data <:+: lineC6.data) ∧
    isAlive [lineC6] pathC6 5001 = false :=
  ⟨⟨prefC6.data, [], by decide⟩, by decide⟩

/-- Witness for C6: a line that contains the exact probe substring and does
not mention `grep` makes the probe report alive. -/
theorem c6_liveness_probe_witness : isAlive [lineW6] pathC6 5001 = true :=
  (c6_liveness_probe [lineW6] pathC6 5001).2 lineW6 (by simp)
    ⟨prefW6.data, [], by decide⟩
    (fun h => absurd (bregMatch_of_inf h) (by decide))

/-! ### Registry and tick lemmas -/

theorem dictKeys_cons (k : String) (v : Nat) (R : Registry) :
    dictKeys ((k, v) :: R) = k :: dictKeys R := rfl

theorem dictGet?_mem_keys {R : Registry} {k : String} {v : Nat}
    (h : dictGet? R k = some v) : k ∈ dictKeys R := by
  induction R with
  | nil => simp [dictGet?] at h
  | cons e rest ih =>
    obtain ⟨k2, v2⟩ := e
    rw [dictGet?] at h
    rw [dictKeys_cons]
    by_cases hk : k2 = k
    · exact hk ▸ List.mem_cons_self _ _
    · rw [if_neg hk] at h
      exact List.mem_cons_of_mem _ (ih h)

theorem dictGet?_insert_of_ne {R : Registry} {f path : String} {v : Nat}
    (h : f ≠ path) : dictGet? (dictInsert R f v) path = dictGet? R path := by
  induction R with
  | nil => simp [dictInsert, dictGet?, h]
  | cons e rest ih =>
    obtain ⟨k2, v2⟩ := e
    by_cases hk : k2 = f
    · subst hk
      rw [dictInsert, if_pos rfl, dictGet?, dictGet?, if_neg h, if_neg h]
    · rw [dictInsert, if_neg hk, dictGet?, dictGet?]
      by_cases hp : k2 = path
      · rw [if_pos hp, if_pos hp]
      · rw [if_neg hp, if_neg hp, ih]

theorem mem_dictKeys_insert_self (R : Registry) (f : String) (v : Nat) :
    f ∈ dictKeys (dictInsert R f v) := by
  induction R with
  | nil => simp [dictInsert, dictKeys]
  | cons e rest ih =>
    obtain ⟨k2, v2⟩ := e
    by_cases hk : k2 = f
    · subst hk
      rw [dictInsert, if_pos rfl, dictKeys_cons]
      exact List.mem_cons_self _ _
    · rw [dictInsert, if_neg hk, dictKeys_cons]
      exact List.mem_cons_of_mem _ ih

theorem mem_dictKeys_insert_of_mem {R : Registry} {x : String} (f : String)
    (v : Nat) (h : x ∈ dictKeys R) : x ∈ dictKeys (dictInsert R f v) := by
  induction R with
  | nil => simp [dictKeys] at h
  | cons e rest ih =>
    obtain ⟨k2, v2⟩ := e
    rw [dictKeys_cons] at h
    by_cases hk : k2 = f
    · subst hk
      rw [dictInsert, if_pos rfl, dictKeys_cons]
      rcases List.mem_cons.mp h with h1 | h2
      · exact h1 ▸ List.mem_cons_self _ _
      · exact List.mem_cons_of_mem _ h2
    · rw [dictInsert, if_neg hk, dictKeys_cons]
      rcases List.mem_cons.mp h with h1 | h2
      · exact h1 ▸ List.mem_cons_self _ _
      · exact List.mem_cons_of_mem _ (ih h2)

theorem probePhase_dead_mem {procs : List String} {R : Registry}
    {path : String} {port : Nat} (hreg : dictGet? R path = some port)
    (hdead : isAlive procs path port = false) :
    Event.restartCmd (programName path) ∈ probePhase procs R ∧
    Event.launch path port ∈ probePhase procs R := by
  induction R with
  | nil => simp [dictGet?] at hreg
  | cons e rest ih =>
    obtain ⟨k2, v2⟩ := e
    rw [dictGet?] at hreg
    rw [probePhase]
    by_cases hk : k2 = path
    · subst hk
      rw [if_pos rfl] at hreg
      have hv : v2 = port := by injection hreg
      subst hv
      rw [hdead]
      constructor <;> simp
    · rw [if_neg hk] at hreg
      obtain ⟨h1, h2⟩ := ih hreg
      exact ⟨List.mem_append.mpr (Or.inr h1), List.mem_append.mpr (Or.inr h2)⟩

theorem probePhase_no_alloc {procs : List String} {R : Registry}
    {f : String} {p : Nat}
    (h : Event.alloc f p ∈ probePhase procs R) : False := by
  induction R with
  | nil => simp [probePhase] at h
  | cons e rest ih =>
    obtain ⟨k2, v2⟩ := e
    rw [probePhase] at h
    rcases List.mem_append.mp h with h1 | h2
    · by_cases ha : isAlive procs k2 v2 = true
      · rw [if_pos ha] at h1; simp at h1
      · rw [if_neg ha] at h1; simp at h1
    · exact ih h2

theorem probePhase_no_stanza {procs : List String} {R : Registry}
    {f : String} {p : Nat}
    (h : Event.stanza f p ∈ probePhase procs R) : False := by
  induction R with
  | nil => simp [probePhase] at h
  | cons e rest ih =>
    obtain ⟨k2, v2⟩ := e
    rw [probePhase] at h
    rcases List.mem_append.mp h with h1 | h2
    · by_cases ha : isAlive procs k2 v2 = true
      · rw [if_pos ha] at h1; simp at h1
      · rw [if_neg ha] at h1; simp at h1
    · exact ih h2

theorem discoverPhase_preserves_get {A : AllocEnv} {fs : List String}
    {R : Registry} {k : Nat} {path : String} {port : Nat}
    (h : dictGet? R path = some port) :
    dictGet? (discoverPhase A fs R k).1 path = some port := by
  induction fs generalizing R k with
  | nil => simpa [discoverPhase] using h
  | cons f fs2 ih =>
    rw [discoverPhase]
    by_cases hf : f ∈ dictKeys R
    · rw [if_pos hf]; exact ih h
    · rw [if_neg hf]
      have hne : f ≠ path := fun he => hf (he ▸ dictGet?_mem_keys h)
      exact ih (by rw [dictGet?_insert_of_ne hne]; exact h)

theorem discoverPhase_events_new {A : AllocEnv} {fs : List String}
    {R : Registry} {k : Nat} {ev : Event}
    (h : ev ∈ (discoverPhase A fs R k).2.1) :
    ∃ f p, f ∉ dictKeys R ∧
      (ev = Event.alloc f p ∨ ev = Event.launch f p ∨ ev = Event.stanza f p) := by
  induction fs generalizing R k with
  | nil => simp [discoverPhase] at h
  | cons f fs2 ih =>
    rw [discoverPhase] at h
    by_cases hf : f ∈ dictKeys R
    · rw [if_pos hf] at h; exact ih h
    · rw [if_neg hf] at h
      simp only [List.mem_cons] at h
      rcases h with h | h | h | h
      · exact ⟨f, _, hf, Or.inl h⟩
      · exact ⟨f, _, hf, Or.inr (Or.inl h)⟩
      · exact ⟨f, _, hf, Or.inr (Or.inr h)⟩
      · obtain ⟨g, p, hg, hev⟩ := ih h
        exact ⟨g, p, fun hmem => hg (mem_dictKeys_insert_of_mem f _ hmem), hev⟩

/-- Claim C1: a registered worker whose liveness probe reports false is
launched by the tick with exactly its registered port, no allocator call is
made for it, and the registry persisted at the end of the tick still maps
its path to the same port. -/
theorem c1_restart_registered_port (e : Env) (R : Registry) (path : String)
    (port : Nat) (hload : loadRegistryEnv e = some R)
    (hreg : dictGet? R path = some port)
    (hdead : isAlive e.procTable path port = false) :
    Event.launch path port ∈ (check_and_restart_python_scripts e).events ∧
    (∀ f p, Event.alloc f p ∈ (check_and_restart_python_scripts e).events →
      f ≠ path) ∧
    ∃ R2, (check_and_restart_python_scripts e).saved = some R2 ∧
      dictGet? R2 path = some port := by
  have ht : check_and_restart_python_scripts e =
      ⟨probePhase e.procTable R ++ (discoverPhase e.alloc e.binFiles R 0).2.1,
       some (discoverPhase e.alloc e.binFiles R 0).1⟩ := by
    simp only [check_and_restart_python_scripts, hload]
  rw [ht]
  refine ⟨?_, ?_, ?_⟩
  · exact List.mem_append.mpr (Or.inl (probePhase_dead_mem hreg hdead).2)
  · intro f p hmem
    rcases List.mem_append.mp hmem with h1 | h2
    · exact (probePhase_no_alloc h1).elim
    · obtain ⟨g, q, hg, hev⟩ := discoverPhase_events_new h2
      rcases hev with hev | hev | hev
      · injection hev with hf hp
        subst hf
        exact fun hfp => hg (hfp ▸ dictGet?_mem_keys hreg)
      · exact Event.noConfusion hev
      · exact Event.noConfusion hev
  · exact ⟨_, rfl, discoverPhase_preserves_get hreg⟩

/-- Witness for C1 on the spec's restart scenario: registry
`a.worker → 5001`, empty process table. -/
theorem c1_restart_registered_port_witness :
    Event.launch pathC1 5001 ∈ (check_and_restart_python_scripts envC1).events :=
  (c1_restart_registered_port envC1 [(pathC1, 5001)] pathC1 5001
    (by decide) (by decide) (by decide)).1

/-- Claim C7 (amended): for every dead existing entry the tick issues a
supervision-daemon restart command for the worker's program name and
re-launches the worker on its registered port, but it does not re-emit the
worker's supervision stanza — stanzas are written (with the daemon reread
and update) only for newly discovered workers, never for existing registry
entries. -/
theorem c7_dead_entry_actions (e : Env) (R : Registry) (path : String)
    (port : Nat) (hload : loadRegistryEnv e = some R)
    (hreg : dictGet? R path = some port)
    (hdead : isAlive e.procTable path port = false) :
    Event.restartCmd (programName path) ∈
      (check_and_restart_python_scripts e).events ∧
    Event.launch path port ∈ (check_and_restart_python_scripts e).events ∧
    ∀ f p, Event.stanza f p ∈ (check_and_restart_python_scripts e).events →
      f ∉ dictKeys R := by
  have ht : check_and_restart_python_scripts e =
      ⟨probePhase e.procTable R ++ (discoverPhase e.alloc e.binFiles R 0).2.1,
       some (discoverPhase e.alloc e.binFiles R 0).1⟩ := by
    simp only [check_and_restart_python_scripts, hload]
  rw [ht]
  refine ⟨?_, ?_, ?_⟩
  · exact List.mem_append.mpr (Or.inl (probePhase_dead_mem hreg hdead).1)
  · exact List.mem_append.mpr (Or.inl (probePhase_dead_mem hreg hdead).2)
  · intro f p hmem
    rcases List.mem_append.mp hmem with h1 | h2
    · exact (probePhase_no_stanza h1).elim
    · obtain ⟨g, q, hg, hev⟩ := discoverPhase_events_new h2
      rcases hev with hev | hev | hev
      · exact Event.noConfusion hev
      · exact Event.noConfusion hev
      · injection hev with hf hp
        exact hf ▸ hg

/-- Witness for C7 on the dead-entry scenario `a.py → 5001`. -/
theorem c7_dead_entry_actions_witness :
    Event.restartCmd (programName pathC7) ∈
      (check_and_restart_python_scripts envC7).events :=
  (c7_dead_entry_actions envC7 [(pathC7, 5001)] pathC7 5001
    (by decide) (by decide) (by decide)).1

/-- Counterexample for C7 as stated: with the registry `a.py → 5001`, the
worker dead and nothing to discover, the tick launches the worker on its
port but emits no supervision stanza for it. -/
theorem c7_counterexample :
    loadRegistryEnv envC7 = some [(pathC7, 5001)] ∧
    isAlive envC7.procTable pathC7 5001 = false ∧
    Event.launch pathC7 5001 ∈ (check_and_restart_python_scripts envC7).events ∧
    Event.stanza pathC7 5001 ∉ (check_and_restart_python_scripts envC7).events := by
  refine ⟨by decide, by decide, by decide, by decide⟩

theorem discoverPhase_keys_mono {A : AllocEnv} {fs : List String}
    {R : Registry} {k : Nat} {x : String} (h : x ∈ dictKeys R) :
    x ∈ dictKeys (discoverPhase A fs R k).1 := by
  induction fs generalizing R k with
  | nil => simpa [discoverPhase] using h
  | cons f fs2 ih =>
    rw [discoverPhase]
    by_cases hf : f ∈ dictKeys R
    · rw [if_pos hf]; exact ih h
    · rw [if_neg hf]
      exact ih (mem_dictKeys_insert_of_mem f _ h)

theorem discoverPhase_mem_keys_files {A : AllocEnv} {fs : List String}
    {R : Registry} {k : Nat} {f : String} (h : f ∈ fs) :
    f ∈ dictKeys (discoverPhase A fs R k).1 := by
  induction fs generalizing R k with
  | nil => simp at h
  | cons g gs ih =>
    rw [discoverPhase]
    rcases List.mem_cons.mp h with h1 | h2
    · subst h1
      by_cases hg : f ∈ dictKeys R
      · rw [if_pos hg]; exact discoverPhase_keys_mono hg
      · rw [if_neg hg]
        exact discoverPhase_keys_mono (mem_dictKeys_insert_self R f _)
    · by_cases hg : g ∈ dictKeys R
      · rw [if_pos hg]; exact ih h2
      · rw [if_neg hg]; exact ih h2

theorem discoverPhase_noop {A : AllocEnv} {fs : List String} {R : Registry}
    {k : Nat} (h : ∀ f ∈ fs, f ∈ dictKeys R) :
    discoverPhase A fs R k = (R, [], k) := by
  induction fs with
  | nil => rfl
  | cons g gs ih =>
    rw [discoverPhase, if_pos (h g (List.mem_cons_self g gs))]
    exact ih fun f hf => h f (List.mem_cons_of_mem g hf)

/-- Claim C9: discovery is idempotent — running the discovery step a second
time, with the same file listing and starting from the registry the first
run produced, adds no entry, performs no allocation, launch or stanza write,
and leaves the registry exactly as the first run left it (so no duplicate
entries arise), whatever the allocator observes in either run. -/
theorem c9_idempotent_discovery (A B : AllocEnv) (fs : List String)
    (R : Registry) (k k2 : Nat) :
    discoverPhase B fs (discoverPhase A fs R k).1 k2
      = ((discoverPhase A fs R k).1, [], k2) :=
  discoverPhase_noop fun _ hf => discoverPhase_mem_keys_files hf

theorem find_available_port_query_det {out : String} {sp ep : Nat}
    (hex : ∃ p, sp ≤ p ∧ p ≤ ep ∧ p ∉ parsePorts out) (b b2 : Nat → Bool) :
    find_available_port (some out) b sp ep
      = find_available_port (some out) b2 sp ep := by
  obtain ⟨p0, hp1, hp2, hp3⟩ := hex
  have hsome : ∃ p, firstInRange sp (ep + 1 - sp)
      (fun p => !decide (p ∈ parsePorts out)) = some p := by
    cases hf : firstInRange sp (ep + 1 - sp)
        (fun p => !decide (p ∈ parsePorts out)) with
    | some p => exact ⟨p, rfl⟩
    | none =>
      have hq := firstInRange_eq_none hf p0 hp1 (by omega)
      simp at hq
      exact absurd hq hp3
  obtain ⟨p, hp⟩ := hsome
  have h1 : find_available_port (some out) b sp ep = p := by
    simp only [find_available_port, hp]
  have h2 : find_available_port (some out) b2 sp ep = p := by
    simp only [find_available_port, hp]
  rw [h1, h2]

theorem discoverPhase_alloc_const {A : AllocEnv} {s : String}
    (hconst : ∀ k, A.lsofOut k = some s)
    (hfree : ∃ p, 5000 ≤ p ∧ p ≤ 65535 ∧ p ∉ parsePorts s) :
    ∀ {fs : List String} {R : Registry} {k : Nat} {f : String} {p : Nat},
      Event.alloc f p ∈ (discoverPhase A fs R k).2.1 →
      p = find_available_port (some s) (fun _ => false) 5000 65535 := by
  intro fs
  induction fs with
  | nil => intro R k f p h; simp [discoverPhase] at h
  | cons g gs ih =>
    intro R k f p h
    rw [discoverPhase] at h
    by_cases hg : g ∈ dictKeys R
    · rw [if_pos hg] at h; exact ih h
    · rw [if_neg hg] at h
      have hport : find_available_port (A.lsofOut k) (A.bindOk k) 5000 65535
          = find_available_port (some s) (fun _ => false) 5000 65535 := by
        rw [hconst k]
        exact find_available_port_query_det hfree (A.bindOk k) (fun _ => false)
      simp only [List.mem_cons] at h
      rcases h with h | h | h | h
      · injection h with hf2 hp2
        exact hp2.trans hport
      · exact Event.noConfusion h
      · exact Event.noConfusion h
      · exact ih h

/-- Claim C2 (amended): against a reported LISTEN set that does not change
between the allocation calls of one tick (no intervening external binds
observed by the allocator), every allocation of the tick returns the same
port — the lowest free one — so two newly discovered workers in one tick
receive the same port, not distinct ones; pairwise-distinct port values are
preserved only when each allocated port is reported in the LISTEN set (or
made unbindable) before the next allocation call. -/
theorem c2_allocations_same_port (e : Env) (s : String)
    (hconst : ∀ k, e.alloc.lsofOut k = some s)
    (hfree : ∃ p, 5000 ≤ p ∧ p ≤ 65535 ∧ p ∉ parsePorts s) :
    ∀ f p f2 p2,
      Event.alloc f p ∈ (check_and_restart_python_scripts e).events →
      Event.alloc f2 p2 ∈ (check_and_restart_python_scripts e).events →
      p = p2 := by
  have key : ∀ g q,
      Event.alloc g q ∈ (check_and_restart_python_scripts e).events →
      q = find_available_port (some s) (fun _ => false) 5000 65535 := by
    intro g q hmem
    cases hload : loadRegistryEnv e with
    | none =>
      simp only [check_and_restart_python_scripts, hload] at hmem
      simp at hmem
    | some R =>
      simp only [check_and_restart_python_scripts, hload] at hmem
      rcases List.mem_append.mp hmem with h1 | h2
      · exact (probePhase_no_alloc h1).elim
      · exact discoverPhase_alloc_const hconst hfree h2
  intro f p f2 p2 h1 h2
  rw [key f p h1, key f2 p2 h2]

/-- Witness for C2's amended statement on the two-new-files environment:
both allocations of the tick returned port 5000. -/
theorem c2_allocations_same_port_witness : (5000 : Nat) = 5000 :=
  c2_allocations_same_port envC2 emptyOutC2 (fun _ => rfl)
    ⟨5000, by decide, by decide, by decide⟩ fileC2a 5000 fileC2b 5000
    (by decide) (by decide)

/-- Counterexample for C2 as stated: a tick that starts from the empty
registry (pairwise-distinct ports, trivially) and discovers two new worker
files against an unchanged LISTEN set assigns port 5000 to both and
persists a registry whose port values are not pairwise distinct. -/
theorem c2_counterexample :
    (check_and_restart_python_scripts envC2).saved
      = some [(fileC2a, 5000), (fileC2b, 5000)] ∧
    ¬ (List.map Prod.snd [(fileC2a, 5000), (fileC2b, 5000)]).Nodup :=
  ⟨by decide, by decide⟩

/-- Claim C5 (amended): when the persisted registry file does not exist the
tick proceeds normally from the empty registry (discovery and the final
save still run); but when the file exists with malformed content the load
error aborts the whole tick — no probe, launch, allocation or save happens —
and the error is merely logged, not fatal to the supervisor process. -/
theorem c5_load_error_policy (e : Env) :
    (e.fileExists = false →
      check_and_restart_python_scripts e =
        ⟨(discoverPhase e.alloc e.binFiles [] 0).2.1,
         some (discoverPhase e.alloc e.binFiles [] 0).1⟩) ∧
    (e.fileExists = true → parseTop e.fileContent.data = none →
      check_and_restart_python_scripts e = ⟨[], none⟩) := by
  constructor
  · intro h
    have hload : loadRegistryEnv e = some [] := by
      rw [loadRegistryEnv, h]
      simp
    simp only [check_and_restart_python_scripts, hload]
    rfl
  · intro h1 h2
    have hload : loadRegistryEnv e = none := by
      rw [loadRegistryEnv, h1]
      simpa using h2
    simp only [check_and_restart_python_scripts, hload]

/-- Witness for C5's amended statement: the malformed-content environment
aborts the tick with no events and no save. -/
theorem c5_load_error_policy_witness :
    check_and_restart_python_scripts envC5m = ⟨[], none⟩ :=
  (c5_load_error_policy envC5m).2 rfl (by decide)

/-- Counterexample for C5 as stated: with malformed persisted content the
tick performs nothing and saves nothing, while the same environment with
the registry file absent proceeds from the empty registry, discovers the
worker file and persists a registry — so malformed content is not treated
as absence of prior state by the tick. -/
theorem c5_counterexample :
    check_and_restart_python_scripts envC5m = ⟨[], none⟩ ∧
    check_and_restart_python_scripts envC5a ≠ ⟨[], none⟩ :=
  ⟨by decide, by decide⟩

/-! ### Persistence round-trip lemmas (claim C8) -/

theorem decDigitChar_toNat {n : Nat} (h : n < 10) :
    (decDigitChar n).toNat = 48 + n := by
  interval_cases n <;> decide

theorem digitVal?_decDigitChar {n : Nat} (h : n < 10) :
    digitVal? (decDigitChar n) = some n := by
  interval_cases n <;> decide

theorem natToStrAux_head :
    ∀ (fuel : Nat) {n : Nat}, n < fuel →
      ∃ c t, natToStrAux fuel n = c :: t ∧ 48 ≤ c.toNat ∧ c.toNat ≤ 57 := by
  intro fuel
  induction fuel with
  | zero => intro n h; omega
  | succ f ih =>
    intro n h
    by_cases hn : n < 10
    · refine ⟨decDigitChar n, [], ?_, ?_, ?_⟩
      · rw [natToStrAux, if_pos hn]
      · rw [decDigitChar_toNat hn]; omega
      · rw [decDigitChar_toNat hn]; omega
    · have hdiv : n / 10 < n := Nat.div_lt_self (by omega) (by omega)
      obtain ⟨c, t, heq, hb1, hb2⟩ := ih (show n / 10 < f by omega)
      refine ⟨c, t ++ [decDigitChar (n % 10)], ?_, hb1, hb2⟩
      rw [natToStrAux, if_neg hn, heq, List.cons_append]

theorem takeDigits_natToStrAux :
    ∀ (fuel : Nat) {n : Nat}, n < fuel →
      ∃ M, 0 < M ∧ ∀ (acc : Nat) (rest : List Char),
        takeDigits (natToStrAux fuel n ++ rest) acc
          = takeDigits rest (acc * M + n) := by
  intro fuel
  induction fuel with
  | zero => intro n h; omega
  | succ f ih =>
    intro n h
    by_cases hn : n < 10
    · refine ⟨10, by omega, fun acc rest => ?_⟩
      rw [natToStrAux, if_pos hn, List.cons_append, List.nil_append,
        takeDigits, digitVal?_decDigitChar hn]
    · have hdiv : n / 10 < n := Nat.div_lt_self (by omega) (by omega)
      obtain ⟨M, hM, hIH⟩ := ih (show n / 10 < f by omega)
      refine ⟨M * 10, by omega, fun acc rest => ?_⟩
      rw [natToStrAux, if_neg hn, List.append_assoc, List.singleton_append,
        hIH acc (decDigitChar (n % 10) :: rest),
        takeDigits, digitVal?_decDigitChar (Nat.mod_lt _ (by omega))]
      show takeDigits rest ((acc * M + n / 10) * 10 + n % 10)
        = takeDigits rest (acc * (M * 10) + n)
      congr 1
      have h10 : n / 10 * 10 + n % 10 = n := by omega
      calc (acc * M + n / 10) * 10 + n % 10
          = acc * (M * 10) + (n / 10 * 10 + n % 10) := by ring
        _ = acc * (M * 10) + n := by rw [h10]

theorem parseJsonNat_digits {fuel n : Nat} (h : n < fuel) {c : Char}
    (hc : digitVal? c = none) (cs : List Char) :
    parseJsonNat (natToStrAux fuel n ++ c :: cs) = some (n, c :: cs) := by
  obtain ⟨c0, t, heq, hb1, hb2⟩ := natToStrAux_head fuel h
  obtain ⟨M, hM, hTD⟩ := takeDigits_natToStrAux fuel h
  have hd0 : digitVal? c0 = some (c0.toNat - 48) := by
    rw [digitVal?, if_pos ⟨hb1, hb2⟩]
  rw [heq, List.cons_append, parseJsonNat, if_pos (by rw [hd0]; rfl)]
  rw [← List.cons_append, ← heq, hTD 0 (c :: cs)]
  rw [Nat.zero_mul, Nat.zero_add, takeDigits, hc]

theorem expectChar_hit (c : Char) (r : List Char) :
    expectChar c (c :: r) = some r := by
  rw [expectChar, if_pos rfl]

theorem hexVal?_hexDigitChar : ∀ d : Nat, d < 16 → hexVal? (hexDigitChar d) = some d := by
  decide

theorem hex4?_toHex4 (m : Nat) (rest : List Char) (hm : m < 65536) :
    hex4? (toHex4 m ++ rest) = some (m, rest) := by
  rw [toHex4]
  simp only [List.cons_append, List.nil_append]
  rw [hex4?,
    hexVal?_hexDigitChar _ (Nat.mod_lt _ (by omega)),
    hexVal?_hexDigitChar _ (Nat.mod_lt _ (by omega)),
    hexVal?_hexDigitChar _ (Nat.mod_lt _ (by omega)),
    hexVal?_hexDigitChar _ (Nat.mod_lt _ (by omega))]
  simp only [Option.some_bind]
  have harith :
      ((m / 4096 % 16 * 16 + m / 256 % 16) * 16 + m / 16 % 16) * 16 + m % 16 = m := by
    omega
  rw [harith]

theorem char_toNat_valid (c : Char) :
    c.toNat < 55296 ∨ (57343 < c.toNat ∧ c.toNat < 1114112) := c.valid

theorem prodFst {α : Type} {β : Type} (a : α) (b : β) : (Prod.mk a b).1 = a := rfl

theorem prodSnd {α : Type} {β : Type} (a : α) (b : β) : (Prod.mk a b).2 = b := rfl

theorem parseUChar_bmp {m : Nat} (X : List Char) (hm : m < 65536)
    (h1 : ¬(55296 ≤ m ∧ m ≤ 56319)) (h2 : ¬(56320 ≤ m ∧ m ≤ 57343)) :
    parseUChar (toHex4 m ++ X) = some (Char.ofNat m, X) := by
  rw [parseUChar, hex4?_toHex4 m X hm, Option.some_bind]
  rw [prodFst, prodSnd]
  rw [if_neg h1, if_neg h2]

theorem parseUChar_pair {m : Nat} (X : List Char) (h1 : 65536 ≤ m)
    (h2 : m < 1114112) :
    parseUChar (toHex4 (55296 + (m - 65536) / 1024) ++
        '\\' :: 'u' :: (toHex4 (56320 + (m - 65536) % 1024) ++ X))
      = some (Char.ofNat m, X) := by
  have hqb : (m - 65536) / 1024 ≤ 1023 := by omega
  have hrb := Nat.mod_lt (m - 65536) (show 0 < 1024 by omega)
  rw [parseUChar, hex4?_toHex4 _ _ (by omega), Option.some_bind]
  rw [prodFst, prodSnd]
  rw [if_pos ⟨by omega, by omega⟩, expectChar_hit, Option.some_bind,
    expectChar_hit, Option.some_bind, hex4?_toHex4 _ _ (by omega), Option.some_bind]
  rw [prodFst, prodSnd]
  rw [if_pos ⟨by omega, by omega⟩]
  have harith : 65536 + (55296 + (m - 65536) / 1024 - 55296) * 1024 +
      (56320 + (m - 65536) % 1024 - 56320) = m := by omega
  rw [harith]

theorem psb_quote (f : Nat) (X : List Char) :
    parseStrBody (f + 1) ('"' :: X) = some ([], X) := rfl

theorem psb_esc_quote (f : Nat) (X : List Char) :
    parseStrBody (f + 1) ('\\' :: '"' :: X) = consCh '"' (parseStrBody f X) := rfl

theorem psb_esc_back (f : Nat) (X : List Char) :
    parseStrBody (f + 1) ('\\' :: '\\' :: X) = consCh '\\' (parseStrBody f X) := rfl

theorem psb_esc_n (f : Nat) (X : List Char) :
    parseStrBody (f + 1) ('\\' :: 'n' :: X) = consCh '\n' (parseStrBody f X) := rfl

theorem psb_esc_r (f : Nat) (X : List Char) :
    parseStrBody (f + 1) ('\\' :: 'r' :: X) = consCh '\r' (parseStrBody f X) := rfl

theorem psb_esc_t (f : Nat) (X : List Char) :
    parseStrBody (f + 1) ('\\' :: 't' :: X) = consCh '\t' (parseStrBody f X) := rfl

theorem psb_esc_b (f : Nat) (X : List Char) :
    parseStrBody (f + 1) ('\\' :: 'b' :: X) = consCh '\x08' (parseStrBody f X) := rfl

theorem psb_esc_f (f : Nat) (X : List Char) :
    parseStrBody (f + 1) ('\\' :: 'f' :: X) = consCh '\x0c' (parseStrBody f X) := rfl

theorem psb_esc_u (f : Nat) (X : List Char) :
    parseStrBody (f + 1) ('\\' :: 'u' :: X)
      = (parseUChar X).bind fun cr => consCh cr.1 (parseStrBody f cr.2) := rfl

theorem psb_lit (f : Nat) (c : Char) (X : List Char) (h1 : ¬ c = '"')
    (h2 : ¬ c = '\\') (h3 : ¬ c.toNat < 32) :
    parseStrBody (f + 1) (c :: X) = consCh c (parseStrBody f X) := by
  show (if c = '"' then some ([], X)
    else if c = '\\' then
      (parseEsc X).bind fun cr => consCh cr.1 (parseStrBody f cr.2)
    else if c.toNat < 32 then none
    else consCh c (parseStrBody f X)) = consCh c (parseStrBody f X)
  rw [if_neg h1, if_neg h2, if_neg h3]

theorem consCh_some (c : Char) (s r : List Char) :
    consCh c (some (s, r)) = some (c :: s, r) := rfl

theorem parseStrBody_encode :
    ∀ (s : List Char) {fuel : Nat} (rest : List Char), s.length < fuel →
      parseStrBody fuel (encodeChars s ++ '"' :: rest) = some (s, rest) := by
  intro s
  induction s with
  | nil =>
    intro fuel rest hf
    obtain ⟨f2, rfl⟩ : ∃ f2, fuel = f2 + 1 := ⟨fuel - 1, by omega⟩
    rw [encodeChars, List.nil_append, psb_quote]
  | cons c s2 ih =>
    intro fuel rest hf
    obtain ⟨f2, rfl⟩ : ∃ f2, fuel = f2 + 1 := ⟨fuel - 1, by omega⟩
    have hf2 : s2.length < f2 := by
      rw [List.length_cons] at hf; omega
    rw [encodeChars, List.append_assoc]
    by_cases h1 : c = '"'
    · subst h1
      rw [show escapeChar '"' = ['\\', '"'] from rfl, List.cons_append,
        List.cons_append, List.nil_append, psb_esc_quote, ih _ hf2, consCh_some]
    · by_cases h2 : c = '\\'
      · subst h2
        rw [show escapeChar '\\' = ['\\', '\\'] from rfl, List.cons_append,
          List.cons_append, List.nil_append, psb_esc_back, ih _ hf2, consCh_some]
      · by_cases h3 : c = '\n'
        · subst h3
          rw [show escapeChar '\n' = ['\\', 'n'] from rfl, List.cons_append,
            List.cons_append, List.nil_append, psb_esc_n, ih _ hf2, consCh_some]
        · by_cases h4 : c = '\r'
          · subst h4
            rw [show escapeChar '\r' = ['\\', 'r'] from rfl, List.cons_append,
              List.cons_append, List.nil_append, psb_esc_r, ih _ hf2, consCh_some]
          · by_cases h5 : c = '\t'
            · subst h5
              rw [show escapeChar '\t' = ['\\', 't'] from rfl, List.cons_append,
                List.cons_append, List.nil_append, psb_esc_t, ih _ hf2, consCh_some]
            · by_cases h6 : c.toNat = 8
              · have hc : c = '\x08' := by
                  rw [← Char.ofNat_toNat c, h6]
                subst hc
                rw [show escapeChar '\x08' = ['\\', 'b'] from rfl, List.cons_append,
                  List.cons_append, List.nil_append, psb_esc_b, ih _ hf2, consCh_some]
              · by_cases h7 : c.toNat = 12
                · have hc : c = '\x0c' := by
                    rw [← Char.ofNat_toNat c, h7]
                  subst hc
                  rw [show escapeChar '\x0c' = ['\\', 'f'] from rfl, List.cons_append,
                    List.cons_append, List.nil_append, psb_esc_f, ih _ hf2, consCh_some]
                · by_cases h8 : c.toNat < 32
                  · rw [escapeChar, if_neg h1, if_neg h2, if_neg h3, if_neg h4,
                      if_neg h5, if_neg h6, if_neg h7, if_pos h8,
                      List.cons_append, List.cons_append,
                      psb_esc_u,
                      parseUChar_bmp _ (by omega) (by omega) (by omega),
                      Option.some_bind, prodFst, prodSnd, Char.ofNat_toNat,
                      ih _ hf2, consCh_some]
                  · by_cases h9 : c.toNat < 127
                    · rw [escapeChar, if_neg h1, if_neg h2, if_neg h3, if_neg h4,
                        if_neg h5, if_neg h6, if_neg h7, if_neg h8, if_pos h9,
                        List.cons_append, List.nil_append,
                        psb_lit f2 c _ h1 h2 h8, ih _ hf2, consCh_some]
                    · by_cases h10 : c.toNat < 65536
                      · have hs1 : ¬(55296 ≤ c.toNat ∧ c.toNat ≤ 56319) := by
                          rcases char_toNat_valid c with h | h <;> omega
                        have hs2 : ¬(56320 ≤ c.toNat ∧ c.toNat ≤ 57343) := by
                          rcases char_toNat_valid c with h | h <;> omega
                        rw [escapeChar, if_neg h1, if_neg h2, if_neg h3, if_neg h4,
                          if_neg h5, if_neg h6, if_neg h7, if_neg h8, if_neg h9,
                          if_pos h10,
                          List.cons_append, List.cons_append,
                          psb_esc_u, parseUChar_bmp _ h10 hs1 hs2,
                          Option.some_bind, prodFst, prodSnd, Char.ofNat_toNat,
                          ih _ hf2, consCh_some]
                      · have hval : c.toNat < 1114112 := by
                          rcases char_toNat_valid c with h | h <;> omega
                        rw [escapeChar, if_neg h1, if_neg h2, if_neg h3, if_neg h4,
                          if_neg h5, if_neg h6, if_neg h7, if_neg h8, if_neg h9,
                          if_neg h10]
                        simp only [List.cons_append, List.append_assoc]
                        rw [psb_esc_u, parseUChar_pair _ (by omega) hval,
                          Option.some_bind, prodFst, prodSnd, Char.ofNat_toNat,
                          ih _ hf2, consCh_some]

theorem skipWs_space (l : List Char) : skipWs (' ' :: l) = skipWs l := rfl

theorem skipWs_nl (l : List Char) : skipWs ('\n' :: l) = skipWs l := rfl

theorem skipWs_not {c : Char} (h : ¬ isWs c = true) (l : List Char) :
    skipWs (c :: l) = c :: l := by
  rw [skipWs, if_neg h]

theorem skipWs_entry (k : String) (v : Nat) (X : List Char) :
    skipWs (entryChars k v ++ X)
      = '"' :: (encodeChars k.data ++ '"' :: ':' :: ' ' ::
          (natToStrAux (v + 1) v ++ X)) := by
  rw [entryChars]
  simp only [List.cons_append, List.append_assoc]
  rw [skipWs_space, skipWs_space, skipWs_space, skipWs_space,
    skipWs_not (by decide)]

theorem skipWs_digits {fuel n : Nat} (h : n < fuel) (X : List Char) :
    skipWs (natToStrAux fuel n ++ X) = natToStrAux fuel n ++ X := by
  obtain ⟨c, t, heq, hb1, hb2⟩ := natToStrAux_head fuel h
  rw [heq, List.cons_append]
  refine skipWs_not (fun hw => ?_) _
  rw [isWs] at hw
  simp only [Bool.or_eq_true, decide_eq_true_eq] at hw
  omega

set_option maxHeartbeats 1000000 in
theorem escapeChar_length_ge (c : Char) : 1 ≤ (escapeChar c).length := by
  rw [escapeChar]
  split_ifs <;>
    simp only [toHex4, List.length_cons, List.length_append,
      List.length_nil, List.length_singleton] <;>
    omega

theorem encodeChars_length_ge (s : List Char) :
    s.length ≤ (encodeChars s).length := by
  induction s with
  | nil => simp [encodeChars]
  | cons c cs ih =>
    rw [encodeChars, List.length_append, List.length_cons]
    have h := escapeChar_length_ge c
    omega

theorem dump_single (k : String) (v : Nat) :
    dumpEntriesList [(k, v)] = entryChars k v := rfl

theorem dump_cons_reshape (k : String) (v : Nat) (e2 : String × Nat)
    (R3 : Registry) (D : List Char) :
    dumpEntriesList ((k, v) :: e2 :: R3) ++ D
      = entryChars k v ++ (',' :: '\n' :: (dumpEntriesList (e2 :: R3) ++ D)) := by
  rw [show dumpEntriesList ((k, v) :: e2 :: R3)
      = entryChars k v ++ ',' :: '\n' :: dumpEntriesList (e2 :: R3) from rfl,
    List.append_assoc, List.cons_append, List.cons_append]

theorem dumpEntriesList_length_ge :
    ∀ R : Registry, R.length ≤ (dumpEntriesList R).length := by
  intro R
  induction R with
  | nil => simp [dumpEntriesList]
  | cons e R2 ih =>
    obtain ⟨k, v⟩ := e
    cases R2 with
    | nil =>
      rw [dump_single, entryChars]
      simp
    | cons e2 R3 =>
      rw [show dumpEntriesList ((k, v) :: e2 :: R3)
          = entryChars k v ++ ',' :: '\n' :: dumpEntriesList (e2 :: R3) from rfl,
        entryChars]
      simp only [List.length_append, List.length_cons, List.cons_append]
      simp only [List.length_cons] at ih
      omega

theorem skipWs_dump_length (k : String) (v : Nat) (R2 : Registry)
    (tail : List Char) :
    ((k, v) :: R2).length
      ≤ (skipWs (dumpEntriesList ((k, v) :: R2) ++ '\n' :: '\x7d' :: tail)).length := by
  cases R2 with
  | nil =>
    rw [dump_single, skipWs_entry]
    simp
  | cons e2 R3 =>
    rw [dump_cons_reshape, skipWs_entry]
    have h1 := dumpEntriesList_length_ge (e2 :: R3)
    simp only [List.length_cons, List.length_append] at h1 ⊢
    omega

theorem dictKeys_append (a b : Registry) :
    dictKeys (a ++ b) = dictKeys a ++ dictKeys b := List.map_append _ _ _

theorem dictInsert_append {acc : Registry} {k : String} (v : Nat)
    (h : k ∉ dictKeys acc) : dictInsert acc k v = acc ++ [(k, v)] := by
  induction acc with
  | nil => rfl
  | cons e rest ih =>
    obtain ⟨k2, v2⟩ := e
    have h1 : ¬ k2 = k := fun he => h (by
      rw [dictKeys_cons, he]
      exact List.mem_cons_self _ _)
    have h2 : k ∉ dictKeys rest := fun hm => h (by
      rw [dictKeys_cons]
      exact List.mem_cons_of_mem _ hm)
    rw [dictInsert, if_neg h1, ih h2, List.cons_append]

theorem pe_quote (fuel : Nat) (cs : List Char) (acc : Registry) :
    parseEntries (fuel + 1) ('"' :: cs) acc
      = (parseStrBody (cs.length + 1) cs).bind fun kr =>
        (expectChar ':' (skipWs kr.2)).bind fun r2 =>
        (parseJsonNat (skipWs r2)).bind fun vr =>
          match skipWs vr.2 with
          | c3 :: r5 =>
            if c3 = ',' then
              parseEntries fuel (skipWs r5) (dictInsert acc (String.mk kr.1) vr.1)
            else if c3 = '\x7d' then
              some (dictInsert acc (String.mk kr.1) vr.1, r5)
            else none
          | [] => none := rfl

theorem parseEntries_dump :
    ∀ (R : Registry) (acc : Registry) (fuel : Nat) (tail : List Char),
      R.length < fuel + 1 →
      (∀ x ∈ dictKeys R, x ∉ dictKeys acc) →
      (dictKeys R).Nodup →
      R ≠ [] →
      parseEntries (fuel + 1)
          (skipWs (dumpEntriesList R ++ '\n' :: '\x7d' :: tail)) acc
        = some (acc ++ R, tail) := by
  intro R
  induction R with
  | nil => intro acc fuel tail h1 h2 h3 h4; exact absurd rfl h4
  | cons e R2 ih =>
    intro acc fuel tail hfuel hdisj hnod hne
    obtain ⟨k, v⟩ := e
    have hkacc : k ∉ dictKeys acc :=
      hdisj k (by rw [dictKeys_cons]; exact List.mem_cons_self _ _)
    cases R2 with
    | nil =>
      rw [dump_single, skipWs_entry, pe_quote]
      rw [parseStrBody_encode k.data _ (by
        rw [List.length_append]
        have he := encodeChars_length_ge k.data
        omega)]
      rw [Option.some_bind, prodFst, prodSnd]
      rw [skipWs_not (by decide), expectChar_hit, Option.some_bind]
      rw [skipWs_space, skipWs_digits (show v < v + 1 by omega)]
      rw [parseJsonNat_digits (show v < v + 1 by omega)
        (show digitVal? '\n' = none by decide) _]
      rw [Option.some_bind, prodFst, prodSnd]
      rw [skipWs_nl, skipWs_not (by decide)]
      show some (dictInsert acc k v, tail) = some (acc ++ [(k, v)], tail)
      rw [dictInsert_append v hkacc]
    | cons e2 R3 =>
      rw [dump_cons_reshape, skipWs_entry, pe_quote]
      rw [parseStrBody_encode k.data _ (by
        rw [List.length_append]
        have he := encodeChars_length_ge k.data
        omega)]
      rw [Option.some_bind, prodFst, prodSnd]
      rw [skipWs_not (by decide), expectChar_hit, Option.some_bind]
      rw [skipWs_space, skipWs_digits (show v < v + 1 by omega)]
      rw [parseJsonNat_digits (show v < v + 1 by omega)
        (show digitVal? ',' = none by decide) _]
      rw [Option.some_bind, prodFst, prodSnd]
      rw [skipWs_not (by decide)]
      show parseEntries fuel
          (skipWs ('\n' :: (dumpEntriesList (e2 :: R3) ++ '\n' :: '\x7d' :: tail)))
          (dictInsert acc k v)
        = some (acc ++ (k, v) :: e2 :: R3, tail)
      rw [skipWs_nl, dictInsert_append v hkacc]
      obtain ⟨f3, rfl⟩ : ∃ f3, fuel = f3 + 1 := ⟨fuel - 1, by
        simp only [List.length_cons] at hfuel
        omega⟩
      have hlen : (e2 :: R3).length < f3 + 1 := by
        simp only [List.length_cons] at hfuel ⊢
        omega
      have hnodk : k ∉ dictKeys (e2 :: R3) := by
        rw [dictKeys_cons] at hnod
        exact (List.nodup_cons.mp hnod).1
      have hdisj2 : ∀ x ∈ dictKeys (e2 :: R3), x ∉ dictKeys (acc ++ [(k, v)]) := by
        intro x hx
        rw [dictKeys_append, List.mem_append]
        rintro (hmem | hmem)
        · exact hdisj x (by rw [dictKeys_cons]; exact List.mem_cons_of_mem _ hx) hmem
        · have hxk : x = k := by simpa [dictKeys] using hmem
          exact hnodk (hxk ▸ hx)
      have hnod2 : (dictKeys (e2 :: R3)).Nodup := by
        rw [dictKeys_cons] at hnod
        exact (List.nodup_cons.mp hnod).2
      rw [ih (acc ++ [(k, v)]) f3 tail hlen hdisj2 hnod2 (by simp)]
      rw [List.append_assoc, List.singleton_append]

theorem dump_head_shape (k : String) (v : Nat) (R2 : Registry)
    (tail : List Char) :
    ∃ BIG, skipWs (dumpEntriesList ((k, v) :: R2) ++ '\n' :: '\x7d' :: tail)
      = '"' :: BIG := by
  cases R2 with
  | nil => exact ⟨_, by rw [dump_single, skipWs_entry]⟩
  | cons e2 R3 => exact ⟨_, by rw [dump_cons_reshape, skipWs_entry]⟩

/-- Claim C8: saving any registry with unique keys and unique ports as the
persisted JSON document and loading it back yields the same registry. -/
theorem c8_persistence_round_trip (R : Registry)
    (hk : (dictKeys R).Nodup) (hp : (R.map Prod.snd).Nodup) :
    loadRegistryString (dumpRegistry R) = some R := by
  cases R with
  | nil => decide
  | cons e R2 =>
    obtain ⟨k, v⟩ := e
    rw [show dumpRegistry ((k, v) :: R2)
        = ⟨'\x7b' :: '\n' :: (dumpEntriesList ((k, v) :: R2) ++ ['\n', '\x7d'])⟩
      from rfl]
    show parseTop
        ('\x7b' :: '\n' :: (dumpEntriesList ((k, v) :: R2) ++ ['\n', '\x7d']))
      = some ((k, v) :: R2)
    rw [parseTop, skipWs_not (by decide), expectChar_hit, Option.some_bind]
    rw [skipWs_nl]
    obtain ⟨BIG, hBIG⟩ := dump_head_shape k v R2 []
    rw [hBIG]
    show ((parseEntries (('"' :: BIG).length + 1) ('"' :: BIG) []).bind fun Rr =>
        if (skipWs Rr.2).isEmpty then some Rr.1 else none) = some ((k, v) :: R2)
    have hlen2 := skipWs_dump_length k v R2 []
    rw [hBIG] at hlen2
    simp only [List.length_cons] at hlen2
    rw [List.length_cons, ← hBIG]
    rw [parseEntries_dump ((k, v) :: R2) [] (BIG.length + 1) []
      (by simp only [List.length_cons] at hlen2 ⊢; omega)
      (by intro x hx; simp [dictKeys]) hk (by simp)]
    rw [Option.some_bind, prodFst, prodSnd]
    show some ([] ++ (k, v) :: R2) = some ((k, v) :: R2)
    rw [List.nil_append]

/-- Witness for C8 on the registry `b.worker → 5001`. -/
theorem c8_persistence_round_trip_witness :
    loadRegistryString (dumpRegistry regC8) = some regC8 :=
  c8_persistence_round_trip regC8 (by decide) (by decide)
